import Mathlib

/-!
Verification development for the scrappy repository
(src/backend/python/pagination_scraper.py and src/backend/python/scraper.py).

The pagination link detector and the pagination crawl loop are shallowly
embedded below.  The Python code works by running regular expressions over
the raw HTML string; the extraction phase (the `re.findall` calls that
produce the anchor, button and form tuples, and the whole-document searches
for the rel="next" and class-hint patterns keyed by a given href) is
modelled by an abstract parsed document (`Doc`), while every piece of the
scoring, ranking, deduplication, crawling and merging logic is embedded
concretely.  The small regular-expression language actually used by the
scoring rules (literals, the character class [?&], \s*, \d+ and .*) is
given an executable matcher faithful to the semantics of re.search on those
patterns.
-/

namespace Scrappy

/-! ## Basic character and string helpers (Python semantics) -/

/-- Whitespace characters recognised by the Python regex class \s and by
str.strip (restricted to the ASCII whitespace actually arising here). -/
def isWsChar (c : Char) : Bool :=
  c = ' ' || c = '\t' || c = '\n' || c = '\r' || c = '\x0b' || c = '\x0c'

/-- Decimal digit test, the Python regex class \d restricted to ASCII. -/
def isDigitChar (c : Char) : Bool :=
  '0' ≤ c && c ≤ '9'

/-- Model of str.lower, character by character (ASCII case folding). -/
def lowerL (s : List Char) : List Char :=
  s.map Char.toLower

/-- Model of str.strip: remove leading and trailing whitespace. -/
def pyStripL (s : List Char) : List Char :=
  ((s.dropWhile isWsChar).reverse.dropWhile isWsChar).reverse

/-- Whether the pattern list is a prefix of the string list. -/
def startsWithL : List Char → List Char → Bool
  | [], _ => true
  | _ :: _, [] => false
  | p :: ps, c :: cs => p = c && startsWithL ps cs

/-- Whether the first list occurs as a contiguous substring of the second,
the semantics of re.search for a pattern with only literal characters. -/
def containsSubL (pat : List Char) : List Char → Bool
  | [] => startsWithL pat []
  | c :: cs => startsWithL pat (c :: cs) || containsSubL pat cs

/-- Number of positions of the second list at which the first list occurs
(occurrences may overlap). -/
def countOcc (pat : List Char) : List Char → Nat
  | [] => if startsWithL pat [] then 1 else 0
  | c :: cs => (if startsWithL pat (c :: cs) then 1 else 0) + countOcc pat cs

/-- Numeric value of a list of decimal digits, as computed by Python int. -/
def digitsToNat (s : List Char) : Nat :=
  s.foldl (fun acc c => 10 * acc + (c.toNat - '0'.toNat)) 0

/-- Model of the Python test re.match applied to the anchored pattern
consisting of one or more digits spanning the whole string. -/
def isAllDigits (s : List Char) : Bool :=
  s ≠ [] && s.all isDigitChar

/-! ## A miniature regex engine

The scoring rules of find_pagination_links use regular expressions built
from literal characters, the class [?&], \s* , \d+ and .* only.  `RTok`
represents one token of such a pattern and `rsearch` gives the semantics of
re.search (does the pattern match at some position of the string). -/

inductive RTok where
  | lit (c : Char)
  | cls (cs : List Char)
  | wsStar
  | digitsPlus
  | anyStar
  deriving DecidableEq, Repr

/-- Scan for \s* followed by the continuation: either the continuation
matches here, or the head is whitespace and the scan continues. -/
def wsScan (k : List Char → Bool) : List Char → Bool
  | [] => k []
  | c :: cs => k (c :: cs) || (isWsChar c && wsScan k cs)

/-- Scan for \d+ followed by the continuation: at least one digit, then
either the continuation matches or further digits are consumed. -/
def digScan (k : List Char → Bool) : List Char → Bool
  | [] => false
  | c :: cs => isDigitChar c && (k cs || digScan k cs)

/-- Scan for .* followed by the continuation, the dot not matching a
newline (the default Python semantics without DOTALL in this loop). -/
def anyScan (k : List Char → Bool) : List Char → Bool
  | [] => k []
  | c :: cs => k (c :: cs) || (c ≠ '\n' && anyScan k cs)

/-- Whether the token pattern matches some prefix of the string. -/
def matchToks : List RTok → List Char → Bool
  | [] => fun _ => true
  | .lit p :: ps => fun s =>
      match s with
      | [] => false
      | c :: cs => p = c && matchToks ps cs
  | .cls set :: ps => fun s =>
      match s with
      | [] => false
      | c :: cs => set.contains c && matchToks ps cs
  | .wsStar :: ps => fun s => wsScan (matchToks ps) s
  | .digitsPlus :: ps => fun s => digScan (matchToks ps) s
  | .anyStar :: ps => fun s => anyScan (matchToks ps) s

/-- Semantics of re.search: the pattern matches starting at some position. -/
def rsearch (p : List RTok) : List Char → Bool
  | [] => matchToks p []
  | c :: cs => matchToks p (c :: cs) || rsearch p cs

/-- Literal pattern tokens for a string. -/
def lits (s : String) : List RTok :=
  s.toList.map RTok.lit

/-- PAGINATION_PATTERNS of pagination_scraper.py, in source order.  Every
pattern in the source uses only literal characters, \s* and \d+ and .*,
so each is represented exactly by a token list. -/
def PAGINATION_PATTERNS : List (List RTok) := [
  -- English patterns
  lits "next" ++ [.wsStar] ++ lits "page",
  lits "next" ++ [.wsStar, .lit '>'],
  [.lit '>', .wsStar] ++ lits "next",
  lits "continue",
  lits "load" ++ [.wsStar] ++ lits "more",
  lits "view" ++ [.wsStar] ++ lits "more",
  lits "more" ++ [.wsStar] ++ lits "results",
  lits "show" ++ [.wsStar] ++ lits "more",
  lits "see" ++ [.wsStar] ++ lits "more",
  lits "pagination",
  lits "next" ++ [.wsStar, .digitsPlus],
  -- Spanish patterns
  lits "siguiente",
  lits "próximo",
  lits "más" ++ [.wsStar] ++ lits "resultados",
  lits "cargar" ++ [.wsStar] ++ lits "más",
  -- French patterns
  lits "suivant",
  lits "page" ++ [.wsStar] ++ lits "suivante",
  lits "plus" ++ [.wsStar] ++ lits "de" ++ [.wsStar] ++ lits "résultats",
  -- German patterns
  lits "nächste",
  lits "weiter",
  lits "mehr" ++ [.wsStar] ++ lits "ergebnisse",
  -- Chinese patterns
  lits "下一页",
  lits "下页",
  lits "更多",
  -- Japanese patterns
  lits "次へ",
  lits "次のページ",
  lits "もっと見る",
  -- Korean patterns
  lits "다음",
  lits "다음" ++ [.wsStar] ++ lits "페이지",
  lits "더" ++ [.wsStar] ++ lits "보기",
  -- Russian patterns
  lits "следующая",
  lits "далее",
  lits "еще",
  -- Portuguese patterns
  lits "próxima",
  lits "avançar",
  lits "mais" ++ [.wsStar] ++ lits "resultados",
  -- Italian patterns
  lits "successiva",
  lits "avanti",
  lits "altri" ++ [.wsStar] ++ lits "risultati",
  -- Arabic patterns
  lits "التالي",
  lits "المزيد",
  -- Generic patterns
  lits "arrow" ++ [.anyStar] ++ lits "right",
  lits "chevron" ++ [.anyStar] ++ lits "right",
  lits "fa-arrow-right",
  lits "fa-chevron-right"]

/-- Result of the Python expression
pattern.replace(two-char-escape-s-star, one space).replace(two-char-escape-d-plus, nothing).strip()
applied to the source string of a token pattern, used by the exact-match
confidence bonus of find_pagination_links. -/
def exactForm (p : List RTok) : List Char :=
  pyStripL (p.flatMap fun t =>
    match t with
    | .lit c => [c]
    | .cls cs => '[' :: cs ++ [']']
    | .wsStar => [' ']
    | .digitsPlus => []
    | .anyStar => ['.', '*'])

/-- First pattern of PAGINATION_PATTERNS that re.search finds in the text,
modelling the for-loop with break of lines 215 to 221 and 295 to 303. -/
def firstKeywordMatch (textLower : List Char) : Option (List RTok) :=
  PAGINATION_PATTERNS.find? (fun p => rsearch p textLower)

/-- url_pagination_patterns of find_pagination_links, in source order. -/
def url_pagination_patterns : List (List RTok) := [
  [.cls ['?', '&']] ++ lits "page=" ++ [.digitsPlus],
  [.cls ['?', '&']] ++ lits "p=" ++ [.digitsPlus],
  [.cls ['?', '&']] ++ lits "offset=" ++ [.digitsPlus],
  [.cls ['?', '&']] ++ lits "start=" ++ [.digitsPlus],
  lits "/page/" ++ [.digitsPlus],
  lits "/p" ++ [.digitsPlus],
  lits "page" ++ [.digitsPlus],
  lits "next"]

/-- exclude_patterns of find_pagination_links: each is a purely literal
regular expression, so re.search is substring containment. -/
def exclude_patterns : List String :=
  ["current", "active", "disabled", "javascript:", "mailto:", "tel:", "#"]

/-! ## Tag stripping

Model of re.sub removing every occurrence of a left angle bracket followed
by one or more characters other than a right angle bracket and then a right
angle bracket (the tag-removal substitution applied to anchor and button
inner text).  A single left-to-right pass with a buffer for a pending open
bracket is equivalent to the leftmost-match substitution semantics of
re.sub for this pattern. -/

/-- Worker: the second argument holds the characters seen since an open
angle bracket, in reverse, when such a bracket is pending. -/
def stripTagsAux : List Char → Option (List Char) → List Char
  | [], none => []
  | [], some buf => '<' :: buf.reverse
  | c :: rest, none =>
      if c = '<' then stripTagsAux rest (some [])
      else c :: stripTagsAux rest none
  | c :: rest, some buf =>
      if c = '>' then
        if buf = [] then '<' :: '>' :: stripTagsAux rest none
        else stripTagsAux rest none
      else stripTagsAux rest (some (c :: buf))

/-- Model of the tag-removal substitution of lines 208 and 292. -/
def stripTags (s : List Char) : List Char :=
  stripTagsAux s none

/-! ## Model of urllib.parse.urljoin

The joining of a reference against a base URL is performed by the Python
standard library.  The model below covers the reference shapes exercised in
this development: the empty reference, absolute http or https URLs,
query-only references and absolute-path references, matching the behaviour
of urllib.parse.urljoin on those inputs; other relative references are
joined against the base with the last path segment replaced. -/

/-- Characters of the scheme-and-authority portion of an absolute URL: the
text through the double slash and up to, but not including, the next slash. -/
def schemeAndHost (base : List Char) : List Char :=
  let rec go : List Char → List Char
    | [] => []
    | '/' :: '/' :: rest =>
        '/' :: '/' :: rest.takeWhile (fun c => c ≠ '/' && c ≠ '?' && c ≠ '#')
    | c :: rest => c :: go rest
  go base

/-- Base with its query and fragment removed. -/
def dropQueryFrag (base : List Char) : List Char :=
  base.takeWhile (fun c => c ≠ '?' && c ≠ '#')

/-- Base with its last path segment (the text after the final slash of the
path, queries and fragments included) removed. -/
def dropLastSegment (base : List Char) : List Char :=
  let rev := base.reverse
  let cut := rev.dropWhile (fun c => c ≠ '/')
  if cut = [] then base else cut.reverse

/-- Model of urllib.parse.urljoin on the reference shapes listed above. -/
def urljoin (base href : String) : String :=
  let b := base.toList
  let h := href.toList
  if h = [] then base
  else if startsWithL "http://".toList h || startsWithL "https://".toList h then href
  else if startsWithL "?".toList h then ⟨dropQueryFrag b ++ h⟩
  else if startsWithL "/".toList h then ⟨schemeAndHost b ++ h⟩
  else ⟨dropLastSegment b ++ h⟩

/-! ## Extraction of a navigation URL from an onclick handler

Model of the search of line 298 for the pattern: the literal text
location.href or window.location, then \s* , an equality sign, \s* , an
opening quote (double or single), one or more characters that are neither
kind of quote (the first capture group), and a closing quote of either
kind.  The first match in left-to-right scan order wins. -/

def isQuoteChar (c : Char) : Bool :=
  c = '"' || c = Char.ofNat 39

/-- Consume the given literal from the front of the string. -/
def dropLit : List Char → List Char → Option (List Char)
  | [], s => some s
  | _ :: _, [] => none
  | p :: ps, c :: cs => if p = c then dropLit ps cs else none

/-- Attempt to match the onclick navigation pattern at the head of the
string, returning the captured URL characters. -/
def onclickAt (s : List Char) : Option (List Char) :=
  match (dropLit "location.href".toList s).orElse
        (fun _ => dropLit "window.location".toList s) with
  | none => none
  | some r =>
    match r.dropWhile isWsChar with
    | '=' :: r2 =>
      match r2.dropWhile isWsChar with
      | q :: r3 =>
        if isQuoteChar q then
          let body := r3.takeWhile (fun c => !isQuoteChar c)
          let rest := r3.dropWhile (fun c => !isQuoteChar c)
          match rest with
          | q2 :: _ => if body ≠ [] && isQuoteChar q2 then some body else none
          | [] => none
        else none
      | [] => none
    | _ => none

/-- First position, scanning left to right, at which the onclick navigation
pattern matches; the model of re.search with one capture group. -/
def extractOnclickUrl : List Char → Option (List Char)
  | [] => onclickAt []
  | c :: cs =>
    match onclickAt (c :: cs) with
    | some u => some u
    | none => extractOnclickUrl cs

/-! ## The parsed document

find_pagination_links extracts its raw material by running regular
expressions over the HTML string: re.findall for the anchor, button and
form tuples, and for each anchor href a whole-document re.search for an
anchor tag carrying rel equal to next with that href, and one for an anchor
tag whose class attribute contains next, pagination, pager or nav with that
href.  `Doc` records the outcomes of that extraction phase; all scoring,
filtering, deduplication and ranking below it is embedded concretely. -/

structure Doc where
  /-- Pairs of href and inner text, as produced by re.findall of the anchor
  pattern of line 201, in document order. -/
  anchors : List (String × String)
  /-- Hrefs for which the whole-document rel-next search of lines 252 and
  253 succeeds. -/
  relNextHrefs : List String
  /-- Hrefs for which the whole-document class-hint search of lines 257 and
  258 succeeds. -/
  navClassHrefs : List String
  /-- Pairs of onclick attribute and inner text, as produced by re.findall
  of the button pattern of line 288, in document order. -/
  buttons : List (String × String)
  /-- Pairs of action attribute and page input value, as produced by
  re.findall of the form pattern of line 306, in document order. -/
  forms : List (String × String)
  deriving DecidableEq, Repr

/-- Inner text after tag removal and stripping, lines 208 and 292. -/
def cleanText (text : String) : List Char :=
  pyStripL (stripTags text.toList)

/-- Confidence score accumulated for one anchor by lines 212 to 259:
keyword bonus with exact-match extra, numeric-text bonus with
plausible-range extra, URL-pattern bonus, rel-next bonus and class bonus. -/
def anchorConfidence (relNextHrefs navClassHrefs : List String)
    (href text : String) : Nat :=
  let textClean := cleanText text
  let textLower := lowerL textClean
  let hrefLower := pyStripL (lowerL href.toList)
  let kw :=
    match firstKeywordMatch textLower with
    | some p => 10 + (if textLower = exactForm p then 5 else 0)
    | none => 0
  let num :=
    if isAllDigits textClean then
      8 + (if 2 ≤ digitsToNat textClean ∧ digitsToNat textClean ≤ 10 then 3 else 0)
    else 0
  let urlp := if url_pagination_patterns.any (fun p => rsearch p hrefLower) then 5 else 0
  let rel := if relNextHrefs.contains href then 15 else 0
  let cls := if navClassHrefs.contains href then 7 else 0
  kw + num + urlp + rel + cls

/-- Exclusion test of lines 261 to 276: some exclude pattern occurs in the
lowered stripped href or in the lowered cleaned inner text. -/
def shouldExclude (href text : String) : Bool :=
  let textLower := lowerL (cleanText text)
  let hrefLower := pyStripL (lowerL href.toList)
  exclude_patterns.any fun p =>
    containsSubL p.toList hrefLower || containsSubL p.toList textLower

/-- Lookup of a candidate URL in the accumulated candidate map; the map of
the source is a Python dict, modelled as an association list in insertion
order. -/
def lookupCand (cands : List (String × Nat)) (u : String) : Option Nat :=
  (cands.find? (fun p => p.1 = u)).map (·.2)

/-- In-place value update of a candidate map entry, keeping its position. -/
def setCand (cands : List (String × Nat)) (u : String) (c : Nat) :
    List (String × Nat) :=
  cands.map fun p => if p.1 = u then (u, c) else p

/-- Keys (URLs) of a candidate map, in insertion order. -/
def keysOf (l : List (String × Nat)) : List String := l.map (·.1)

/-- Processing of one anchor tuple, lines 204 to 285: skip blank hrefs,
score, test exclusion and positivity, resolve against the base URL, and
insert or max-update the candidate map. -/
def anchorStep (relNextHrefs navClassHrefs : List String) (base : String)
    (cands : List (String × Nat)) (a : String × String) :
    List (String × Nat) :=
  if pyStripL a.1.toList = [] then cands
  else
    let conf := anchorConfidence relNextHrefs navClassHrefs a.1 a.2
    if shouldExclude a.1 a.2 = false ∧ 0 < conf then
      let full := urljoin base a.1
      if full ≠ base ∧ lookupCand cands full = none then cands ++ [(full, conf)]
      else
        match lookupCand cands full with
        | some c => setCand cands full (max c conf)
        | none => cands
    else cands

/-- Processing of one button tuple, lines 291 to 303: a keyword match on
the cleaned inner text, extraction of a navigation URL from the onclick
handler, and insertion at fixed confidence 8 when the URL is new. -/
def buttonStep (base : String) (cands : List (String × Nat))
    (b : String × String) : List (String × Nat) :=
  let textLower := lowerL (cleanText b.2)
  if (firstKeywordMatch textLower).isSome then
    match extractOnclickUrl b.1.toList with
    | some u =>
      let full := urljoin base ⟨u⟩
      if lookupCand cands full = none then cands ++ [(full, 8)] else cands
    | none => cands
  else cands

/-- Paginated URL synthesized from a form action and page value, lines 312
and 313: append the page parameter with an ampersand when the action
already has a query string and a question mark otherwise, then resolve
against the base. -/
def formUrl (base action v : String) : String :=
  urljoin base (action ++ (if action.toList.contains '?' then "&" else "?") ++
    "page=" ++ v)

/-- Processing of one form tuple, lines 309 to 315: for a nonempty numeric
page value, synthesize the paginated URL from the action and insert it at
fixed confidence 6 when new. -/
def formStep (base : String) (cands : List (String × Nat))
    (f : String × String) : List (String × Nat) :=
  if f.2 ≠ "" ∧ f.2.toList.all isDigitChar = true then
    let full := formUrl base f.1 f.2
    if lookupCand cands full = none then cands ++ [(full, 6)] else cands
  else cands

/-- The full candidate map accumulated by the three strategies of
find_pagination_links, in insertion order. -/
def candidatesOf (doc : Doc) (base : String) : List (String × Nat) :=
  let c1 := doc.anchors.foldl (anchorStep doc.relNextHrefs doc.navClassHrefs base) []
  let c2 := doc.buttons.foldl (buttonStep base) c1
  doc.forms.foldl (formStep base) c2

/-- Stable insertion into a list sorted by descending confidence: the new
entry goes before the first entry whose confidence is not larger. -/
def insertDesc (x : String × Nat) : List (String × Nat) → List (String × Nat)
  | [] => [x]
  | y :: ys => if x.2 < y.2 then y :: insertDesc x ys else x :: y :: ys

/-- Stable sort by descending confidence, the model of the Python builtin
sorted with the confidence key and reverse set, which is a stable sort. -/
def sortDesc : List (String × Nat) → List (String × Nat)
  | [] => []
  | x :: xs => insertDesc x (sortDesc xs)

/-- Final ranked, truncated and thresholded candidate list of lines 317 to
321: sort by descending confidence, keep the first three entries, keep
those with confidence at least 5. -/
def rankedOut (doc : Doc) (base : String) : List (String × Nat) :=
  ((sortDesc (candidatesOf doc base)).take 3).filter fun p => 5 ≤ p.2

/-- find_pagination_links of pagination_scraper.py over the parsed
document: the URLs of the ranked output. -/
def find_pagination_links (doc : Doc) (base : String) : List String :=
  (rankedOut doc base).map (·.1)

/-! ## The pagination crawl loop

scrape_with_pagination drives the external page renderer (Crawl4AI, via
scrape_single_page) around the detector.  The renderer is an external
collaborator and enters the model as a function from URL to outcome.  The
per-page result dict carries more fields than the claims touch; `PageData`
keeps the ones the crawl loop reads: markdown, the raw html (in parsed
form, since it is fed back into find_pagination_links), title and url.
The smart next-link selection of lines 370 to 391 rederives anchor text by
string surgery on the current URL; no claim depends on which of the
detected candidates it picks, so it enters the model as a function
parameter and every theorem about the loop holds for all selectors. -/

structure PageData where
  markdown : String
  html : Doc
  title : String
  url : String
  deriving DecidableEq, Repr

/-- Outcome of one render of the external page renderer. -/
inductive RenderResult where
  | ok (d : PageData)
  | err (e : String)
  deriving DecidableEq, Repr

/-- Observable events of one crawl: a URL being added to the visited set,
and a URL being fetched (scrape_single_page being invoked on it). -/
inductive Ev where
  | addVisited (u : String)
  | fetch (u : String)
  deriving DecidableEq, Repr

/-- The while loop of lines 347 to 398.  The fuel argument counts the
remaining page budget: the loop guard pages_scraped < max_pages holds
exactly when the fuel is positive, since every non-breaking iteration
appends one page.  Returns the collected pages, the propagated first-page
render error when there is one, and the event trace. -/
def crawlLoop (render : String → RenderResult)
    (smartSelect : List String → Doc → String → Option String)
    (visited : List String) (pages : List PageData)
    (current : Option String) (fuel : Nat) :
    List PageData × Option String × List Ev :=
  match fuel, current with
  | 0, _ => (pages, none, [])
  | _, none => (pages, none, [])
  | fuel + 1, some cur =>
    if cur = "" then (pages, none, [])
    else if cur ∈ visited then (pages, none, [])
    else
      match render cur with
      | .err e =>
        if pages = [] then (pages, some e, [.addVisited cur, .fetch cur])
        else (pages, none, [.addVisited cur, .fetch cur])
      | .ok d =>
        let links := find_pagination_links d.html cur
        let next := if links = [] then none else smartSelect links d.html cur
        let rest := crawlLoop render smartSelect (visited ++ [cur]) (pages ++ [d]) next fuel
        (rest.1, rest.2.1, [.addVisited cur, .fetch cur] ++ rest.2.2)

/-- The literal page separator joined between markdown blocks, line 415. -/
def PAGE_BREAK_SEP : String := "\n\n--- PAGE BREAK ---\n\n"

/-- Markdown block of one page: header with page number, title and source
URL, then the page markdown, lines 407 and 408. -/
def pageBlock (i : Nat) (r : PageData) : String :=
  "# Page " ++ toString (i + 1) ++ " - " ++ r.title ++ "\n\n*Source: " ++
    r.url ++ "*\n\n" ++ r.markdown

/-- Model of the Python str.join on a list of strings. -/
def joinSep (sep : String) : List String → String
  | [] => ""
  | [a] => a
  | a :: rest => a ++ sep ++ joinSep sep rest

/-- Combined markdown of all pages, line 415. -/
def combinedMarkdown (pages : List PageData) : String :=
  joinSep PAGE_BREAK_SEP (pages.enum.map fun p => pageBlock p.1 p.2)

/-- Combined crawl result of lines 400 to 457, restricted to the fields
the claims mention: markdown, start URL, title of the first page, and the
pagination bookkeeping (pages_scraped agrees between pagination_info and
metadata.pagination and equals the length of the collected page list). -/
structure CombinedData where
  markdown : String
  url : String
  title : String
  pagesScraped : Nat
  urlsScraped : List String
  maxPagesRequested : Int
  deriving DecidableEq, Repr

def combine (startUrl : String) (maxPages : Int) (pages : List PageData) :
    CombinedData :=
  { markdown := combinedMarkdown pages
    url := startUrl
    title := (pages.head?.map (·.title)).getD ""
    pagesScraped := pages.length
    urlsScraped := pages.map (·.url)
    maxPagesRequested := maxPages }

/-- Overall outcome of scrape_with_pagination: the success dict or the
propagated failure dict. -/
inductive CrawlOutcome where
  | success (d : CombinedData)
  | failure (e : String)
  deriving DecidableEq, Repr

/-- scrape_with_pagination of pagination_scraper.py: run the loop from the
start URL with an empty visited set and no pages, then either propagate the
first-page failure or merge the collected pages. -/
def scrape_with_pagination (render : String → RenderResult)
    (smartSelect : List String → Doc → String → Option String)
    (url : String) (maxPages : Int) : CrawlOutcome × List Ev :=
  let r := crawlLoop render smartSelect [] [] (some url) maxPages.toNat
  match r.2.1 with
  | some e => (.failure e, r.2.2)
  | none => (.success (combine url maxPages r.1), r.2.2)

/-- Number of pages reported by an outcome; a failure carries none. -/
def pagesScrapedOf : CrawlOutcome → Nat
  | .success d => d.pagesScraped
  | .failure _ => 0

/-- URLs of the fetch events of a trace, in order. -/
def fetchedUrls : List Ev → List String
  | [] => []
  | .fetch u :: tr => u :: fetchedUrls tr
  | .addVisited _ :: tr => fetchedUrls tr

/-- Whether a trace consists of visited-insertion events each immediately
followed by the fetch of the same URL: no URL is ever fetched without being
recorded as visited first. -/
def pairedTrace : List Ev → Bool
  | [] => true
  | .addVisited u :: .fetch v :: tr => u = v && pairedTrace tr
  | _ => false

/-! ## The command line interface

main of pagination_scraper.py, lines 465 to 497: URL required, then a scan
of the remaining arguments for the pagination flag, the max-pages option
and a JSON extraction config.  JSON parsing and the Python truthiness of a
parsed value are performed by the json library, entering the model as
parameters.  A parsed-argument outcome is either an argument-validation
failure that prints an error and exits with status 1, or a run
configuration. -/

inductive CliOutcome (J : Type) where
  | exitErr (msg : String)
  | run (url : String) (cfg : Option J) (usePagination : Bool) (maxPages : Int)
  deriving DecidableEq, Repr

/-- Model of the Python str.split on a single character. -/
def splitOnChar (c : Char) : List Char → List (List Char)
  | [] => [[]]
  | x :: xs =>
    let r := splitOnChar c xs
    if x = c then [] :: r
    else
      match r with
      | h :: t => (x :: h) :: t
      | [] => [[x]]

/-- Model of the Python int constructor on strings: optional surrounding
whitespace, an optional sign, then one or more digits.  Digit grouping with
underscores is not modelled; no claim exercises it. -/
def pyInt (s : String) : Option Int :=
  match pyStripL s.toList with
  | '-' :: ds =>
      if ds ≠ [] && ds.all isDigitChar then some (-(digitsToNat ds : Int)) else none
  | '+' :: ds =>
      if ds ≠ [] && ds.all isDigitChar then some (digitsToNat ds : Int) else none
  | ds =>
      if ds ≠ [] && ds.all isDigitChar then some (digitsToNat ds : Int) else none

/-- The value handed to int for a max-pages argument: piece at index 1 of
the split of the argument on the equality sign. -/
def maxPagesValue (a : String) : String :=
  ⟨((splitOnChar '=' a.toList).getD 1 [])⟩

/-- Python truthiness of the accumulated extraction strategy, the test
not-extraction_strategy of line 493: true when no config was parsed yet or
the parsed JSON value is falsy (such as an empty object or array). -/
def cfgFalsy (falsy : J → Bool) : Option J → Bool
  | none => true
  | some j => falsy j

/-- The argument scan of lines 480 to 497, processing the arguments after
the URL in order while carrying the accumulated configuration. -/
def parseArgsGo (jsonParse : String → Option J) (falsy : J → Bool)
    (url : String) (args : List String) (cfg : Option J) (up : Bool)
    (mp : Int) : CliOutcome J :=
  match args with
  | [] => .run url cfg up mp
  | a :: rest =>
    if a = "--pagination" then parseArgsGo jsonParse falsy url rest cfg true mp
    else if startsWithL "--max-pages=".toList a.toList then
      match pyInt (maxPagesValue a) with
      | some n => parseArgsGo jsonParse falsy url rest cfg up n
      | none => .exitErr "Invalid max-pages value"
    else if cfgFalsy falsy cfg then
      match jsonParse a with
      | some j => parseArgsGo jsonParse falsy url rest (some j) up mp
      | none => parseArgsGo jsonParse falsy url rest cfg up mp
    else parseArgsGo jsonParse falsy url rest cfg up mp

/-- Argument handling of main of pagination_scraper.py: argv includes the
program name; a missing URL exits with status 1, otherwise the remaining
arguments are scanned with no config, pagination off and max-pages 5. -/
def mainParseArgs (jsonParse : String → Option J) (falsy : J → Bool)
    (argv : List String) : CliOutcome J :=
  match argv with
  | [] => .exitErr "URL argument is required"
  | [_] => .exitErr "URL argument is required"
  | _ :: url :: rest => parseArgsGo jsonParse falsy url rest none false 5

/-- Markdown carried by an outcome; a failure carries none. -/
def markdownOf : CrawlOutcome → String
  | .success d => d.markdown
  | .failure _ => ""

/-- The separator text named by the specification, without the surrounding
blank lines that the joined separator adds. -/
def pageBreakText : String := "--- PAGE BREAK ---"

/-! ## Concrete instances used to exhibit behaviours

The documents, pages and renderers below are concrete inputs on which the
embedded functions are evaluated inside closed theorems. -/

/-- Document with a rel-next anchor of confidence 15 and a keyword anchor
of confidence 27. -/
def relNextDoc : Doc :=
  ⟨[("http://e/b", "x"), ("http://e/c?page=2", "next page")],
   ["http://e/b"], ["http://e/c?page=2"], [], []⟩

/-- Document whose only pagination signal is a button whose onclick
handler navigates to the base URL. -/
def buttonToBaseDoc : Doc :=
  ⟨[], [], [], [("location.href=\x27http://e/\x27", "continue")], []⟩

/-- Document holding exactly the two numeric anchors of the scenario. -/
def twoNumericDoc : Doc :=
  ⟨[("?page=3", "3"), ("?page=2", "2")], [], [], [], []⟩

/-- Document with a single anchor whose inner text is exactly next. -/
def bareNextDoc : Doc :=
  ⟨[("http://x.test/item", "next")], [], [], [], []⟩

/-- Selector that picks the top-ranked candidate, a concrete instance of
the abstracted smart selection. -/
def selHead : List String → Doc → String → Option String :=
  fun links _ _ => links.head?

/-- Page whose own markdown contains the separator text. -/
def sepPage1 : PageData :=
  ⟨"before\n--- PAGE BREAK ---\nafter",
   ⟨[("http://c.test/b?page=2", "2")], [], [], [], []⟩,
   "T1", "http://c.test/"⟩

/-- Second page of the two-page crawl, with no further links. -/
def sepPage2 : PageData :=
  ⟨"tail", ⟨[], [], [], [], []⟩, "T2", "http://c.test/b?page=2"⟩

/-- Renderer serving the two pages above. -/
def sepRender : String → RenderResult := fun u =>
  if u = "http://c.test/" then .ok sepPage1
  else if u = "http://c.test/b?page=2" then .ok sepPage2
  else .err "boom"

/-- Page linking onward to a second URL, for the partial-failure crawl. -/
def wPage : PageData :=
  ⟨"mk", ⟨[("http://w.test/b?page=2", "2")], [], [], [], []⟩,
   "tt", "http://w.test/"⟩

/-- Renderer that serves the first page and fails on every other URL. -/
def wRender : String → RenderResult := fun u =>
  if u = "http://w.test/" then .ok wPage else .err "late"

/-- Renderer that fails on every URL. -/
def failRender : String → RenderResult := fun _ => .err "down"

/-- Document whose single anchor resolves to the base URL itself. -/
def selfLinkDoc : Doc :=
  ⟨[("http://e/", "next page")], [], [], [], []⟩

/-- Page used in the partial-failure unfolding witness. -/
def plainPage : PageData :=
  ⟨"m", ⟨[], [], [], [], []⟩, "t", "http://p.test/"⟩

/-! ## Lemmas about the stable descending sort -/

theorem insertDesc_perm (x : String × Nat) (l : List (String × Nat)) :
    List.Perm (insertDesc x l) (x :: l) := by
  induction l with
  | nil => simp [insertDesc]
  | cons y ys ih =>
    simp only [insertDesc]
    split
    · exact (ih.cons y).trans (List.Perm.swap x y ys)
    · exact List.Perm.refl _

theorem sortDesc_perm (l : List (String × Nat)) :
    List.Perm (sortDesc l) l := by
  induction l with
  | nil => simp [sortDesc]
  | cons x xs ih => exact (insertDesc_perm x (sortDesc xs)).trans (ih.cons x)

theorem insertDesc_sorted (x : String × Nat) (l : List (String × Nat))
    (h : l.Sorted (fun a b => b.2 ≤ a.2)) :
    (insertDesc x l).Sorted (fun a b => b.2 ≤ a.2) := by
  induction l with
  | nil => simp [insertDesc]
  | cons y ys ih =>
    rw [List.sorted_cons] at h
    simp only [insertDesc]
    split
    · rename_i hlt
      rw [List.sorted_cons]
      refine ⟨?_, ih h.2⟩
      intro b hb
      have hb2 : b ∈ x :: ys := (insertDesc_perm x ys).mem_iff.mp hb
      rcases List.mem_cons.mp hb2 with hb3 | hb3
      · rw [hb3]; exact Nat.le_of_lt hlt
      · exact h.1 b hb3
    · rename_i hge
      rw [List.sorted_cons]
      refine ⟨?_, List.sorted_cons.mpr h⟩
      intro b hb
      rcases List.mem_cons.mp hb with hb | hb
      · subst hb; exact Nat.le_of_not_lt hge
      · exact Nat.le_trans (h.1 b hb) (Nat.le_of_not_lt hge)

theorem sortDesc_sorted (l : List (String × Nat)) :
    (sortDesc l).Sorted (fun a b => b.2 ≤ a.2) := by
  induction l with
  | nil => simp [sortDesc]
  | cons x xs ih => exact insertDesc_sorted x (sortDesc xs) ih

theorem insertDesc_of_const (c : Nat) (x : String × Nat)
    (l : List (String × Nat)) (hx : x.2 = c) (h : ∀ p ∈ l, p.2 = c) :
    insertDesc x l = x :: l := by
  cases l with
  | nil => rfl
  | cons y ys =>
    have hy : y.2 = c := h y (by simp)
    simp [insertDesc, hx, hy]

/-- Stability of the sort on runs of equal confidence: a candidate list
whose entries all share one confidence is returned in first-seen order. -/
theorem sortDesc_of_const (c : Nat) (l : List (String × Nat))
    (h : ∀ p ∈ l, p.2 = c) : sortDesc l = l := by
  induction l with
  | nil => rfl
  | cons x xs ih =>
    have h2 : ∀ p ∈ xs, p.2 = c := fun p hp => h p (List.mem_cons_of_mem x hp)
    rw [sortDesc, ih h2]
    exact insertDesc_of_const c x xs (h x (by simp)) h2

/-! ## Lemmas about the candidate map -/

theorem keysOf_setCand (l : List (String × Nat)) (u : String) (c : Nat) :
    keysOf (setCand l u c) = keysOf l := by
  simp only [keysOf, setCand, List.map_map]
  refine List.map_congr_left fun p _ => ?_
  by_cases h : p.1 = u <;> simp [h]

theorem lookupCand_eq_none_iff (l : List (String × Nat)) (u : String) :
    lookupCand l u = none ↔ u ∉ keysOf l := by
  rw [lookupCand, Option.map_eq_none', List.find?_eq_none]
  simp only [keysOf, List.mem_map, decide_eq_true_eq]
  constructor
  · rintro h ⟨p, hp, rfl⟩
    exact h p hp rfl
  · rintro h p hp rfl
    exact h ⟨p, hp, rfl⟩

/-- A step-preserved predicate is preserved by the fold. -/
theorem foldl_pres {α β : Type} (step : β → α → β) (P : β → Prop)
    (hp : ∀ b a, P b → P (step b a)) :
    ∀ (l : List α) (b : β), P b → P (l.foldl step b) := by
  intro l
  induction l with
  | nil => exact fun b h => h
  | cons a l ih => exact fun b h => ih (step b a) (hp b a h)

theorem nodup_keys_append (cands : List (String × Nat)) (u : String) (c : Nat)
    (h : (keysOf cands).Nodup) (hu : lookupCand cands u = none) :
    (keysOf (cands ++ [(u, c)])).Nodup := by
  have hu2 : u ∉ keysOf cands := (lookupCand_eq_none_iff cands u).mp hu
  have : keysOf (cands ++ [(u, c)]) = keysOf cands ++ [u] := by
    simp [keysOf]
  rw [this, List.nodup_append]
  refine ⟨h, List.nodup_singleton u, ?_⟩
  intro a ha hb
  rw [List.mem_singleton] at hb
  subst hb
  exact hu2 ha

theorem nodup_keys_anchorStep (relN navC : List String) (base : String)
    (cands : List (String × Nat)) (a : String × String)
    (h : (keysOf cands).Nodup) :
    (keysOf (anchorStep relN navC base cands a)).Nodup := by
  unfold anchorStep
  split
  · exact h
  dsimp only
  split
  · split
    · rename_i hcond
      exact nodup_keys_append cands _ _ h hcond.2
    · split
      · rw [keysOf_setCand]; exact h
      · exact h
  · exact h

theorem nodup_keys_buttonStep (base : String) (cands : List (String × Nat))
    (b : String × String) (h : (keysOf cands).Nodup) :
    (keysOf (buttonStep base cands b)).Nodup := by
  unfold buttonStep
  dsimp only
  split
  · split
    · split
      · rename_i hnone
        exact nodup_keys_append cands _ _ h hnone
      · exact h
    · exact h
  · exact h

theorem nodup_keys_formStep (base : String) (cands : List (String × Nat))
    (f : String × String) (h : (keysOf cands).Nodup) :
    (keysOf (formStep base cands f)).Nodup := by
  unfold formStep
  split
  · dsimp only
    split
    · rename_i hnone
      exact nodup_keys_append cands _ _ h hnone
    · exact h
  · exact h

/-- The accumulated candidate map has pairwise distinct URLs. -/
theorem nodup_keys_candidatesOf (doc : Doc) (base : String) :
    (keysOf (candidatesOf doc base)).Nodup := by
  unfold candidatesOf
  refine foldl_pres (formStep base) (fun b => (keysOf b).Nodup)
    (fun b a h => nodup_keys_formStep base b a h) _ _ ?_
  refine foldl_pres (buttonStep base) (fun b => (keysOf b).Nodup)
    (fun b a h => nodup_keys_buttonStep base b a h) _ _ ?_
  refine foldl_pres (anchorStep doc.relNextHrefs doc.navClassHrefs base)
    (fun b => (keysOf b).Nodup)
    (fun b a h => nodup_keys_anchorStep doc.relNextHrefs doc.navClassHrefs base b a h) _ _ ?_
  simp [keysOf]

/-- Every URL the detector returns is a key of the candidate map. -/
theorem mem_find_mem_keys (doc : Doc) (base : String) (u : String)
    (h : u ∈ find_pagination_links doc base) :
    u ∈ keysOf (candidatesOf doc base) := by
  simp only [find_pagination_links, rankedOut, List.mem_map] at h
  obtain ⟨p, hp, rfl⟩ := h
  have h1 : p ∈ (sortDesc (candidatesOf doc base)).take 3 := List.mem_of_mem_filter hp
  have h2 : p ∈ sortDesc (candidatesOf doc base) := List.mem_of_mem_take h1
  have h3 : p ∈ candidatesOf doc base := (sortDesc_perm _).mem_iff.mp h2
  exact List.mem_map.mpr ⟨p, h3, rfl⟩

theorem not_mem_keys_append (cands : List (String × Nat)) (u : String) (c : Nat)
    (base : String) (h : base ∉ keysOf cands) (hu : u ≠ base) :
    base ∉ keysOf (cands ++ [(u, c)]) := by
  have he : keysOf (cands ++ [(u, c)]) = keysOf cands ++ [u] := by simp [keysOf]
  rw [he]
  intro hmem
  rcases List.mem_append.mp hmem with hmem | hmem
  · exact h hmem
  · rw [List.mem_singleton] at hmem
    exact hu hmem.symm

/-- Strategy 1 never inserts the base URL into the candidate map: the
self-loop guard of line 281 compares the resolved URL against the base. -/
theorem base_not_mem_keys_anchorStep (relN navC : List String) (base : String)
    (cands : List (String × Nat)) (a : String × String)
    (h : base ∉ keysOf cands) :
    base ∉ keysOf (anchorStep relN navC base cands a) := by
  unfold anchorStep
  split
  · exact h
  dsimp only
  split
  · split
    · rename_i hcond
      exact not_mem_keys_append cands _ _ base h hcond.1
    · split
      · rw [keysOf_setCand]; exact h
      · exact h
  · exact h

/-! ## Lemmas about occurrence counting

The page separator contains no newline between its dashes, while the
joined separator surrounds it with newlines on both sides; occurrences of
a newline-free pattern therefore never straddle the boundaries of the
concatenation, which yields an exact occurrence count for the combined
markdown. -/

theorem startsWithL_iff (p s : List Char) :
    startsWithL p s = true ↔ p <+: s := by
  induction p generalizing s with
  | nil => simp [startsWithL, List.nil_prefix]
  | cons a ps ih =>
    cases s with
    | nil =>
      simp only [startsWithL]
      constructor
      · intro h; exact absurd h (by simp)
      · intro h
        exact absurd (List.eq_nil_of_prefix_nil h) (by simp)
    | cons c cs =>
      simp only [startsWithL, Bool.and_eq_true, decide_eq_true_eq, List.cons_prefix_cons]
      exact and_congr Iff.rfl (ih cs)

/-- A pattern free of newlines matches at the head of a concatenation
whose right part opens with a newline exactly when it matches at the head
of the left part alone. -/
theorem startsWithL_append_headNl (pat x b : List Char) (hpat : '\n' ∉ pat)
    (hb : b.head? = some '\n') :
    startsWithL pat (x ++ b) = startsWithL pat x := by
  cases hx : startsWithL pat x with
  | true =>
    have hp : pat <+: x := (startsWithL_iff pat x).mp hx
    exact (startsWithL_iff pat (x ++ b)).mpr (hp.trans (x.prefix_append b))
  | false =>
    cases hxb : startsWithL pat (x ++ b) with
    | false => rfl
    | true =>
      exfalso
      have hp : pat <+: x ++ b := (startsWithL_iff pat (x ++ b)).mp hxb
      have hx2 : x <+: x ++ b := x.prefix_append b
      rcases List.prefix_or_prefix_of_prefix hp hx2 with hc | hc
      · rw [(startsWithL_iff pat x).mpr hc] at hx
        simp at hx
      · obtain ⟨t, ht⟩ := hc
        cases t with
        | nil =>
          rw [List.append_nil] at ht
          rw [ht] at hx
          rw [(startsWithL_iff pat pat).mpr (List.prefix_refl pat)] at hx
          simp at hx
        | cons tc ts =>
          have htb : (tc :: ts) <+: b := by
            obtain ⟨r, hr⟩ := hp
            rw [← ht, List.append_assoc] at hr
            exact ⟨r, List.append_cancel_left hr⟩
          have htc : tc = '\n' := by
            obtain ⟨r, hr⟩ := htb
            rw [← hr] at hb
            simpa using hb
          apply hpat
          rw [← ht, htc]
          exact List.mem_append_right x (by simp)

/-- Occurrences of a nonempty newline-free pattern split across a
concatenation whose right part opens with a newline. -/
theorem countOcc_append_headNl (pat : List Char) (hne : pat ≠ [])
    (hpat : '\n' ∉ pat) (a b : List Char) (hb : b.head? = some '\n') :
    countOcc pat (a ++ b) = countOcc pat a + countOcc pat b := by
  induction a with
  | nil =>
    have h0 : countOcc pat [] = 0 := by
      cases pat with
      | nil => exact absurd rfl hne
      | cons p ps => simp [countOcc, startsWithL]
    simp [h0]
  | cons c a2 ih =>
    have hs : startsWithL pat (c :: a2 ++ b) = startsWithL pat (c :: a2) :=
      startsWithL_append_headNl pat (c :: a2) b hpat hb
    calc countOcc pat (c :: a2 ++ b)
        = (if startsWithL pat (c :: a2 ++ b) then 1 else 0) + countOcc pat (a2 ++ b) := rfl
      _ = (if startsWithL pat (c :: a2) then 1 else 0) + (countOcc pat a2 + countOcc pat b) := by
          rw [hs, ih]
      _ = countOcc pat (c :: a2) + countOcc pat b := by
          show _ = (if startsWithL pat (c :: a2) then 1 else 0) + countOcc pat a2 + countOcc pat b
          omega

/-- A newline never opens an occurrence of a newline-free pattern. -/
theorem countOcc_cons_nl (pat : List Char) (hne : pat ≠ [])
    (hpat : '\n' ∉ pat) (s : List Char) :
    countOcc pat ('\n' :: s) = countOcc pat s := by
  cases pat with
  | nil => exact absurd rfl hne
  | cons p ps =>
    have hp : p ≠ '\n' := fun h => hpat (h ▸ List.mem_cons_self p ps)
    have hs : startsWithL (p :: ps) ('\n' :: s) = false := by
      simp only [startsWithL, Bool.and_eq_false_iff, decide_eq_false_iff_not]
      exact Or.inl hp
    simp [countOcc, hs]

/-! ## Invariants of the crawl loop -/

theorem crawlLoop_none (render : String → RenderResult)
    (sel : List String → Doc → String → Option String)
    (v : List String) (p : List PageData) (f : Nat) :
    crawlLoop render sel v p none f = (p, none, []) := by
  cases f <;> rfl

/-- Every trace of the loop pairs each visited-insertion with the fetch of
the same URL, in that order: a URL is recorded as visited before being
fetched, and nothing is fetched without being recorded. -/
theorem crawlLoop_paired (render : String → RenderResult)
    (sel : List String → Doc → String → Option String) :
    ∀ (fuel : Nat) (v : List String) (p : List PageData) (c : Option String),
      pairedTrace (crawlLoop render sel v p c fuel).2.2 = true := by
  intro fuel
  induction fuel with
  | zero => intro v p c; cases c <;> rfl
  | succ f ih =>
    intro v p c
    cases c with
    | none => rfl
    | some cur =>
      unfold crawlLoop
      split
      · rfl
      split
      · rfl
      cases hr : render cur with
      | err e =>
        dsimp only
        split <;> simp [pairedTrace]
      | ok d =>
        dsimp only
        simp [pairedTrace, ih]

/-- No URL is fetched twice, and no fetched URL was already visited when
the loop started. -/
theorem crawlLoop_fetched (render : String → RenderResult)
    (sel : List String → Doc → String → Option String) :
    ∀ (fuel : Nat) (v : List String) (p : List PageData) (c : Option String),
      (fetchedUrls (crawlLoop render sel v p c fuel).2.2).Nodup ∧
      ∀ u ∈ fetchedUrls (crawlLoop render sel v p c fuel).2.2, u ∉ v := by
  intro fuel
  induction fuel with
  | zero =>
    intro v p c
    cases c <;> simp [crawlLoop, fetchedUrls]
  | succ f ih =>
    intro v p c
    cases c with
    | none => simp [crawlLoop_none, fetchedUrls]
    | some cur =>
      unfold crawlLoop
      split
      · exact ⟨List.nodup_nil, by intro u hu; simp [fetchedUrls] at hu⟩
      split
      · exact ⟨List.nodup_nil, by intro u hu; simp [fetchedUrls] at hu⟩
      rename_i hne hcv
      cases hr : render cur with
      | err e =>
        dsimp only
        split
        · refine ⟨by simp [fetchedUrls], ?_⟩
          intro u hu
          simp [fetchedUrls] at hu
          rw [hu]; exact hcv
        · refine ⟨by simp [fetchedUrls], ?_⟩
          intro u hu
          simp [fetchedUrls] at hu
          rw [hu]; exact hcv
      | ok d =>
        dsimp only
        obtain ⟨h1, h2⟩ := ih (v ++ [cur]) (p ++ [d])
          (if find_pagination_links d.html cur = [] then none
           else sel (find_pagination_links d.html cur) d.html cur)
        simp only [List.cons_append, List.nil_append]
        have hshape :
            fetchedUrls (Ev.addVisited cur :: Ev.fetch cur ::
              (crawlLoop render sel (v ++ [cur]) (p ++ [d])
                (if find_pagination_links d.html cur = [] then none
                 else sel (find_pagination_links d.html cur) d.html cur) f).2.2) =
            cur :: fetchedUrls (crawlLoop render sel (v ++ [cur]) (p ++ [d])
                (if find_pagination_links d.html cur = [] then none
                 else sel (find_pagination_links d.html cur) d.html cur) f).2.2 := by
          simp [fetchedUrls]
        rw [hshape]
        constructor
        · refine List.Nodup.cons ?_ h1
          intro hmem
          exact (h2 cur hmem) (List.mem_append_right v (by simp))
        · intro u hu
          rcases List.mem_cons.mp hu with hu | hu
          · rw [hu]; exact hcv
          · intro huv
            exact (h2 u hu) (List.mem_append_left [cur] huv)

/-- The loop appends at most one page per unit of fuel. -/
theorem crawlLoop_len (render : String → RenderResult)
    (sel : List String → Doc → String → Option String) :
    ∀ (fuel : Nat) (v : List String) (p : List PageData) (c : Option String),
      (crawlLoop render sel v p c fuel).1.length ≤ p.length + fuel := by
  intro fuel
  induction fuel with
  | zero => intro v p c; cases c <;> simp [crawlLoop]
  | succ f ih =>
    intro v p c
    cases c with
    | none => simp [crawlLoop_none]
    | some cur =>
      unfold crawlLoop
      split
      · simp
      split
      · simp
      cases hr : render cur with
      | err e =>
        dsimp only
        split <;> simp
      | ok d =>
        dsimp only
        have := ih (v ++ [cur]) (p ++ [d])
          (if find_pagination_links d.html cur = [] then none
           else sel (find_pagination_links d.html cur) d.html cur)
        simp only [List.length_append, List.length_singleton] at this
        omega

/-- One unfolding of the loop at a failing render with pages already
collected: the loop stops, keeps the pages and propagates no error. -/
theorem crawlLoop_err_keepPages (render : String → RenderResult)
    (sel : List String → Doc → String → Option String)
    (v : List String) (p : List PageData) (cur : String) (f : Nat) (e : String)
    (hp : p ≠ []) (hcur : cur ≠ "") (hcv : cur ∉ v)
    (hr : render cur = .err e) :
    crawlLoop render sel v p (some cur) (f + 1) =
      (p, none, [.addVisited cur, .fetch cur]) := by
  conv_lhs => rw [crawlLoop]
  rw [if_neg hcur, if_neg hcv, hr]
  dsimp only
  rw [if_neg hp]

/-- One unfolding of the loop at a failing render with no pages yet: the
loop stops and propagates the error. -/
theorem crawlLoop_err_first (render : String → RenderResult)
    (sel : List String → Doc → String → Option String)
    (v : List String) (cur : String) (f : Nat) (e : String)
    (hcur : cur ≠ "") (hcv : cur ∉ v) (hr : render cur = .err e) :
    crawlLoop render sel v [] (some cur) (f + 1) =
      ([], some e, [.addVisited cur, .fetch cur]) := by
  conv_lhs => rw [crawlLoop]
  rw [if_neg hcur, if_neg hcv, hr]
  dsimp only
  rw [if_pos rfl]

/-- One unfolding of the loop at a successful render. -/
theorem crawlLoop_ok (render : String → RenderResult)
    (sel : List String → Doc → String → Option String)
    (v : List String) (p : List PageData) (cur : String) (f : Nat)
    (d : PageData) (hcur : cur ≠ "") (hcv : cur ∉ v) (hr : render cur = .ok d) :
    crawlLoop render sel v p (some cur) (f + 1) =
      ((crawlLoop render sel (v ++ [cur]) (p ++ [d])
          (if find_pagination_links d.html cur = [] then none
           else sel (find_pagination_links d.html cur) d.html cur) f).1,
       (crawlLoop render sel (v ++ [cur]) (p ++ [d])
          (if find_pagination_links d.html cur = [] then none
           else sel (find_pagination_links d.html cur) d.html cur) f).2.1,
       Ev.addVisited cur :: Ev.fetch cur ::
         (crawlLoop render sel (v ++ [cur]) (p ++ [d])
          (if find_pagination_links d.html cur = [] then none
           else sel (find_pagination_links d.html cur) d.html cur) f).2.2) := by
  conv_lhs => rw [crawlLoop]
  rw [if_neg hcur, if_neg hcv, hr]
  rfl

/-! ## Claim C5 -/

/-- C5: for every document and base URL the detector output has length at
most 3, consists of the URLs of the ranked candidate list, and that list
is ordered by confidence descending with every entry of confidence at
least 5. -/
theorem C5_output_contract (doc : Doc) (base : String) :
    (find_pagination_links doc base).length ≤ 3 ∧
    find_pagination_links doc base = (rankedOut doc base).map (·.1) ∧
    (rankedOut doc base).Sorted (fun a b => b.2 ≤ a.2) ∧
    ∀ p ∈ rankedOut doc base, 5 ≤ p.2 := by
  refine ⟨?_, rfl, ?_, ?_⟩
  · rw [find_pagination_links, List.length_map, rankedOut]
    calc (((sortDesc (candidatesOf doc base)).take 3).filter fun p => 5 ≤ p.2).length
        ≤ ((sortDesc (candidatesOf doc base)).take 3).length :=
          List.length_filter_le _ _
      _ ≤ 3 := List.length_take_le 3 _
  · exact List.Pairwise.sublist
      ((List.filter_sublist _).trans (List.take_sublist 3 _)) (sortDesc_sorted _)
  · intro p hp
    exact of_decide_eq_true (List.mem_filter.mp hp).2

theorem C5_output_contract_witness :
    (find_pagination_links twoNumericDoc "http://x.test/list").length ≤ 3 ∧
    find_pagination_links twoNumericDoc "http://x.test/list" =
      (rankedOut twoNumericDoc "http://x.test/list").map (·.1) ∧
    (rankedOut twoNumericDoc "http://x.test/list").Sorted (fun a b => b.2 ≤ a.2) ∧
    ∀ p ∈ rankedOut twoNumericDoc "http://x.test/list", 5 ≤ p.2 :=
  C5_output_contract twoNumericDoc "http://x.test/list"

/-! ## Claim C7 -/

/-- C7: in every crawl each fetched URL is recorded in the visited set
immediately before its fetch, no URL is ever fetched twice, and the number
of collected pages never exceeds the page budget. -/
theorem C7_visited_invariants (render : String → RenderResult)
    (sel : List String → Doc → String → Option String) (url : String) (mp : Int) :
    pairedTrace (scrape_with_pagination render sel url mp).2 = true ∧
    (fetchedUrls (scrape_with_pagination render sel url mp).2).Nodup ∧
    pagesScrapedOf (scrape_with_pagination render sel url mp).1 ≤ mp.toNat := by
  have hp := crawlLoop_paired render sel mp.toNat [] [] (some url)
  have hf := (crawlLoop_fetched render sel mp.toNat [] [] (some url)).1
  have hl := crawlLoop_len render sel mp.toNat [] [] (some url)
  unfold scrape_with_pagination
  dsimp only
  cases hm : (crawlLoop render sel [] [] (some url) mp.toNat).2.1 with
  | some e =>
    refine ⟨hp, hf, ?_⟩
    simp [pagesScrapedOf]
  | none =>
    refine ⟨hp, hf, ?_⟩
    simp only [pagesScrapedOf, combine]
    simpa using hl

/-! ## Claim C2 -/

/-- C2 counterexample: a button whose onclick handler navigates to the
base URL is returned by the detector, so the detector can return the base
URL itself. -/
theorem C2_counterexample :
    find_pagination_links buttonToBaseDoc "http://e/" = ["http://e/"] := by
  decide

/-- C2 amended: the self-loop guard covers anchors only; for documents
with no buttons and no forms the detector never returns the base URL. -/
theorem C2_anchor_guard (doc : Doc) (base : String)
    (hb : doc.buttons = []) (hf : doc.forms = []) :
    base ∉ find_pagination_links doc base := by
  intro hmem
  have hkeys := mem_find_mem_keys doc base base hmem
  unfold candidatesOf at hkeys
  rw [hb, hf] at hkeys
  simp only [List.foldl_nil] at hkeys
  have hnot : base ∉ keysOf
      (doc.anchors.foldl (anchorStep doc.relNextHrefs doc.navClassHrefs base) []) :=
    foldl_pres (anchorStep doc.relNextHrefs doc.navClassHrefs base)
      (fun b => base ∉ keysOf b)
      (fun b a h => base_not_mem_keys_anchorStep doc.relNextHrefs doc.navClassHrefs base b a h)
      doc.anchors [] (by simp [keysOf])
  exact hnot hkeys

theorem C2_anchor_guard_witness :
    "http://e/" ∉ find_pagination_links selfLinkDoc "http://e/" :=
  C2_anchor_guard selfLinkDoc "http://e/" rfl rfl

/-! ## Claim C3 -/

/-- C3 counterexample: in the two-anchor scenario each candidate receives
confidence 16, not 13: 8 for the purely numeric text, 3 more because the
number lies in the plausible range from 2 to 10, and 5 for the URL
pattern. -/
theorem C3_counterexample :
    anchorConfidence [] [] "?page=3" "3" = 16 ∧
    candidatesOf twoNumericDoc "http://x.test/list" =
      [("http://x.test/list?page=3", 16), ("http://x.test/list?page=2", 16)] := by
  decide

/-- C3 amended: each candidate of the scenario receives confidence
exactly 16, both appear in the output, and candidate lists of one shared
confidence are returned in first-seen order. -/
theorem C3_numeric_scenario :
    (candidatesOf twoNumericDoc "http://x.test/list" =
      [("http://x.test/list?page=3", 16), ("http://x.test/list?page=2", 16)] ∧
     find_pagination_links twoNumericDoc "http://x.test/list" =
      ["http://x.test/list?page=3", "http://x.test/list?page=2"]) ∧
    ∀ (c : Nat) (l : List (String × Nat)), (∀ q ∈ l, q.2 = c) → sortDesc l = l := by
  refine ⟨by decide, ?_⟩
  intro c l h
  exact sortDesc_of_const c l h

theorem C3_numeric_scenario_witness :
    sortDesc [("http://x.test/list?page=3", 16), ("http://x.test/list?page=2", 16)] =
      [("http://x.test/list?page=3", 16), ("http://x.test/list?page=2", 16)] :=
  C3_numeric_scenario.2 16 _ (by decide)

/-! ## Claim C4 -/

/-- C4 counterexample: an anchor whose inner text is exactly next matches
no entry of the keyword list, receives no keyword bonus, scores 0 and is
not returned at all. -/
theorem C4_counterexample :
    firstKeywordMatch "next".toList = none ∧
    anchorConfidence [] [] "http://x.test/item" "next" = 0 ∧
    find_pagination_links bareNextDoc "http://x.test/" = [] := by
  decide

/-- C4 amended: a keyword match adds 10 to the anchor confidence and an
exact match adds 5 more; the list holds multi-word English entries such as
next page, continue and load more, but no bare next, so inner text exactly
next earns no keyword bonus while continue, load more and next page are
exact matches. -/
theorem C4_keyword_bonus :
    (∀ (relN navC : List String) (href text : String) (p : List RTok),
       firstKeywordMatch (lowerL (cleanText text)) = some p →
       10 ≤ anchorConfidence relN navC href text) ∧
    (∀ (relN navC : List String) (href text : String) (p : List RTok),
       firstKeywordMatch (lowerL (cleanText text)) = some p →
       lowerL (cleanText text) = exactForm p →
       15 ≤ anchorConfidence relN navC href text) ∧
    firstKeywordMatch "next".toList = none ∧
    anchorConfidence [] [] "http://x.test/item" "continue" = 15 ∧
    anchorConfidence [] [] "http://x.test/item" "load more" = 15 ∧
    anchorConfidence [] [] "http://x.test/item" "next page" = 15 := by
  refine ⟨?_, ?_, by decide, by decide, by decide, by decide⟩
  · intro relN navC href text p h
    unfold anchorConfidence
    dsimp only
    rw [h]
    dsimp only
    refine le_trans ?_ (Nat.le_add_right _ _)
    refine le_trans ?_ (Nat.le_add_right _ _)
    refine le_trans ?_ (Nat.le_add_right _ _)
    refine le_trans ?_ (Nat.le_add_right _ _)
    exact Nat.le_add_right 10 _
  · intro relN navC href text p h hex
    unfold anchorConfidence
    dsimp only
    rw [h]
    dsimp only
    rw [if_pos hex]
    refine le_trans ?_ (Nat.le_add_right _ _)
    refine le_trans ?_ (Nat.le_add_right _ _)
    refine le_trans ?_ (Nat.le_add_right _ _)
    refine le_trans ?_ (Nat.le_add_right _ _)
    exact Nat.le_refl 15

/-! ## Claim C1 -/

theorem pair_unique_of_nodup_keys (l : List (String × Nat))
    (hnd : (keysOf l).Nodup) (u : String) (c c2 : Nat)
    (h1 : (u, c) ∈ l) (h2 : (u, c2) ∈ l) : c = c2 := by
  induction l with
  | nil => simp at h1
  | cons p ps ih =>
    have hnd2 : p.1 ∉ keysOf ps ∧ (keysOf ps).Nodup := by
      simpa [keysOf] using hnd
    rcases List.mem_cons.mp h1 with h1 | h1 <;> rcases List.mem_cons.mp h2 with h2 | h2
    · exact congrArg Prod.snd (h1.trans h2.symm)
    · exfalso
      apply hnd2.1
      rw [← h1]
      exact List.mem_map.mpr ⟨(u, c2), h2, rfl⟩
    · exfalso
      apply hnd2.1
      rw [← h2]
      exact List.mem_map.mpr ⟨(u, c), h1, rfl⟩
    · exact ih hnd2.2 h1 h2

/-- C1 counterexample: the rel-next anchor resolves to a URL of
confidence 15, at least 5, yet it is not placed first: a keyword anchor of
confidence 27 precedes it. -/
theorem C1_counterexample :
    anchorConfidence relNextDoc.relNextHrefs relNextDoc.navClassHrefs
      "http://e/b" "x" = 15 ∧
    urljoin "http://e/" "http://e/b" = "http://e/b" ∧
    find_pagination_links relNextDoc "http://e/" =
      ["http://e/c?page=2", "http://e/b"] := by
  decide

/-- C1 amended: the rel-next rule adds exactly 15 to the anchor
confidence, and the rel-next URL is placed first precisely when its
confidence strictly dominates: any candidate of confidence at least 5 that
is strictly higher than every other candidate heads the output. -/
theorem C1_rel_next :
    (∀ (relN navC : List String) (href text : String),
       relN.contains href = true →
       anchorConfidence relN navC href text =
         anchorConfidence [] navC href text + 15) ∧
    (∀ (doc : Doc) (base u : String) (c : Nat),
       (u, c) ∈ candidatesOf doc base → 5 ≤ c →
       (∀ q ∈ candidatesOf doc base, q.1 ≠ u → q.2 < c) →
       (find_pagination_links doc base).head? = some u) := by
  constructor
  · intro relN navC href text h
    unfold anchorConfidence
    dsimp only
    have hnil : (([] : List String).contains href) = false := rfl
    rw [h, hnil]
    simp
    omega
  · intro doc base u c hmem h5 hmax
    have hperm := sortDesc_perm (candidatesOf doc base)
    have hsort := sortDesc_sorted (candidatesOf doc base)
    have hmemL : (u, c) ∈ sortDesc (candidatesOf doc base) := hperm.mem_iff.mpr hmem
    cases hLc : sortDesc (candidatesOf doc base) with
    | nil =>
      rw [hLc] at hmemL
      simp at hmemL
    | cons hd t =>
      rw [hLc] at hmemL hsort hperm
      have hhd_mem : hd ∈ candidatesOf doc base :=
        hperm.mem_iff.mp (List.mem_cons_self hd t)
      have hble : c ≤ hd.2 := by
        rcases List.mem_cons.mp hmemL with h | h
        · rw [← h]
        · exact (List.sorted_cons.mp hsort).1 (u, c) h
      have hhd1 : hd.1 = u := by
        by_contra hne
        have := hmax hd hhd_mem hne
        omega
      have hhd2 : hd.2 = c := by
        have h2 : (u, hd.2) ∈ candidatesOf doc base := by
          have he : hd = (u, hd.2) := Prod.ext hhd1 rfl
          rw [← he]
          exact hhd_mem
        exact pair_unique_of_nodup_keys _ (nodup_keys_candidatesOf doc base) u hd.2 c h2 hmem
      have hhd : hd = (u, c) := Prod.ext hhd1 hhd2
      rw [hhd] at hLc
      show ((((sortDesc (candidatesOf doc base)).take 3).filter
        fun p => 5 ≤ p.2).map (·.1)).head? = some u
      rw [hLc]
      rw [show ((u, c) :: t).take 3 = (u, c) :: t.take 2 from rfl]
      rw [List.filter_cons_of_pos (by simpa using h5)]
      simp

/-! ## Claim C10 -/

theorem lookupCand_setCand (l : List (String × Nat)) (u : String) (x c : Nat)
    (h : lookupCand l u = some c) :
    lookupCand (setCand l u x) u = some x := by
  induction l with
  | nil => simp [lookupCand] at h
  | cons p ps ih =>
    by_cases hp : p.1 = u
    · simp [lookupCand, setCand, List.find?_cons, hp]
    · have h2 : lookupCand ps u = some c := by
        simpa [lookupCand, List.find?_cons, hp] using h
      have h3 := ih h2
      simpa [lookupCand, setCand, List.find?_cons, hp] using h3

/-- C10: a URL already recorded as a candidate is never updated by the
button or form strategies, whose fixed confidences 8 and 6 are assigned
only to fresh URLs; an anchor hitting an existing candidate updates it to
the maximum of the stored and the new confidence. -/
theorem C10_duplicate_policy :
    (∀ (base : String) (cands : List (String × Nat)) (oc t : String) (u : List Char),
       extractOnclickUrl oc.toList = some u →
       lookupCand cands (urljoin base ⟨u⟩) ≠ none →
       buttonStep base cands (oc, t) = cands) ∧
    (∀ (base : String) (cands : List (String × Nat)) (action v : String),
       lookupCand cands (formUrl base action v) ≠ none →
       formStep base cands (action, v) = cands) ∧
    (∀ (relN navC : List String) (base : String) (cands : List (String × Nat))
       (href text : String) (c : Nat),
       pyStripL href.toList ≠ [] →
       shouldExclude href text = false →
       lookupCand cands (urljoin base href) = some c →
       lookupCand (anchorStep relN navC base cands (href, text)) (urljoin base href) =
         some (max c (anchorConfidence relN navC href text))) := by
  refine ⟨?_, ?_, ?_⟩
  · intro base cands oc t u hext hlk
    unfold buttonStep
    dsimp only
    split
    all_goals first
    | rfl
    | (rw [hext]; dsimp only; rw [if_neg hlk])
  · intro base cands action v h
    unfold formStep
    split
    all_goals first
    | rfl
    | (dsimp only; rw [if_neg h])
  · intro relN navC base cands href text c hstrip hexcl hlk
    unfold anchorStep
    rw [if_neg hstrip]
    dsimp only
    rcases Nat.eq_zero_or_pos (anchorConfidence relN navC href text) with hz | hpos
    · have hcond : ¬(shouldExclude href text = false ∧
          0 < anchorConfidence relN navC href text) := by
        rintro ⟨-, hlt⟩
        omega
      rw [if_neg hcond, hlk, hz, Nat.max_zero]
    · rw [if_pos ⟨hexcl, hpos⟩]
      have hc2 : ¬(urljoin base href ≠ base ∧
          lookupCand cands (urljoin base href) = none) := by
        rintro ⟨-, hn⟩
        rw [hlk] at hn
        exact Option.noConfusion hn
      rw [if_neg hc2, hlk]
      exact lookupCand_setCand cands (urljoin base href) _ c hlk

theorem C10_duplicate_policy_witness :
    buttonStep "http://e/" [("http://e/", 3)]
      ("location.href=\x27http://e/\x27", "continue") = [("http://e/", 3)] ∧
    formStep "http://e/b" [("http://e/b?page=2", 3)] ("", "2") =
      [("http://e/b?page=2", 3)] ∧ formUrl "http://e/b" "" "2" = "http://e/b?page=2" ∧
    lookupCand (anchorStep [] [] "http://e/b" [("http://e/b?page=2", 3)]
        ("?page=2", "2")) (urljoin "http://e/b" "?page=2") =
      some (max 3 (anchorConfidence [] [] "?page=2" "2")) :=
  ⟨C10_duplicate_policy.1 "http://e/" [("http://e/", 3)]
      "location.href=\x27http://e/\x27" "continue" "http://e/".toList
      (by decide) (by decide),
   C10_duplicate_policy.2.1 "http://e/b" [("http://e/b?page=2", 3)] "" "2"
      (by decide),
   by decide,
   C10_duplicate_policy.2.2 [] [] "http://e/b" [("http://e/b?page=2", 3)]
      "?page=2" "2" 3 (by decide) (by decide) (by decide)⟩

/-! ## Claim C9 -/

theorem parseArgsGo_skip {J : Type} (jp : String → Option J) (falsy : J → Bool)
    (url a : String) (rest : List String) (cfg : Option J) (up : Bool) (mp : Int)
    (h1 : jp a = none) (h2 : a ≠ "--pagination")
    (h3 : startsWithL "--max-pages=".toList a.toList = false) :
    parseArgsGo jp falsy url (a :: rest) cfg up mp =
      parseArgsGo jp falsy url rest cfg up mp := by
  conv_lhs => rw [parseArgsGo.eq_def]
  dsimp only
  rw [if_neg h2, if_neg (by simp only [h3]; exact Bool.false_ne_true)]
  split
  all_goals first
  | rfl
  | rw [h1]

theorem parseArgsGo_exit {J : Type} (jp : String → Option J) (falsy : J → Bool)
    (url : String) :
    ∀ (args : List String) (cfg : Option J) (up : Bool) (mp : Int) (m : String),
      parseArgsGo jp falsy url args cfg up mp = .exitErr m →
      ∃ a ∈ args, startsWithL "--max-pages=".toList a.toList = true ∧
        pyInt (maxPagesValue a) = none := by
  intro args
  induction args with
  | nil =>
    intro cfg up mp m h
    rw [parseArgsGo.eq_def] at h
    exact CliOutcome.noConfusion h
  | cons a rest ih =>
    intro cfg up mp m h
    rw [parseArgsGo.eq_def] at h
    dsimp only at h
    by_cases h1 : a = "--pagination"
    · rw [if_pos h1] at h
      obtain ⟨b, hb, hprop⟩ := ih _ _ _ _ h
      exact ⟨b, List.mem_cons_of_mem a hb, hprop⟩
    rw [if_neg h1] at h
    by_cases h2 : startsWithL "--max-pages=".toList a.toList = true
    · rw [if_pos h2] at h
      cases hint : pyInt (maxPagesValue a) with
      | some n =>
        rw [hint] at h
        obtain ⟨b, hb, hprop⟩ := ih _ _ _ _ h
        exact ⟨b, List.mem_cons_of_mem a hb, hprop⟩
      | none =>
        exact ⟨a, List.mem_cons_self a rest, h2, hint⟩
    · rw [if_neg h2] at h
      split at h
      · cases hjp : jp a with
        | some j =>
          rw [hjp] at h
          obtain ⟨b, hb, hprop⟩ := ih _ _ _ _ h
          exact ⟨b, List.mem_cons_of_mem a hb, hprop⟩
        | none =>
          rw [hjp] at h
          obtain ⟨b, hb, hprop⟩ := ih _ _ _ _ h
          exact ⟨b, List.mem_cons_of_mem a hb, hprop⟩
      · obtain ⟨b, hb, hprop⟩ := ih _ _ _ _ h
        exact ⟨b, List.mem_cons_of_mem a hb, hprop⟩

/-- C9: a second positional argument that fails JSON parsing is silently
skipped by the argument scan, leaving the parse as if the argument were
absent, and in particular a bare non-JSON second argument yields the
default run configuration; an argument-validation exit arises only from a
missing URL or an invalid max-pages value. -/
theorem C9_bad_json_ignored :
    (∀ {J : Type} (jp : String → Option J) (falsy : J → Bool) (url a : String)
       (rest : List String) (cfg : Option J) (up : Bool) (mp : Int),
       jp a = none → a ≠ "--pagination" →
       startsWithL "--max-pages=".toList a.toList = false →
       parseArgsGo jp falsy url (a :: rest) cfg up mp =
         parseArgsGo jp falsy url rest cfg up mp) ∧
    (∀ {J : Type} (jp : String → Option J) (falsy : J → Bool) (prog url a : String),
       jp a = none → a ≠ "--pagination" →
       startsWithL "--max-pages=".toList a.toList = false →
       mainParseArgs jp falsy [prog, url, a] = .run url none false 5) ∧
    (∀ {J : Type} (jp : String → Option J) (falsy : J → Bool)
       (argv : List String) (m : String),
       mainParseArgs jp falsy argv = .exitErr m →
       argv.length ≤ 1 ∨
       ∃ a ∈ argv, startsWithL "--max-pages=".toList a.toList = true ∧
         pyInt (maxPagesValue a) = none) := by
  refine ⟨?_, ?_, ?_⟩
  · intro J jp falsy url a rest cfg up mp h1 h2 h3
    exact parseArgsGo_skip jp falsy url a rest cfg up mp h1 h2 h3
  · intro J jp falsy prog url a h1 h2 h3
    have hm : mainParseArgs jp falsy [prog, url, a] =
        parseArgsGo jp falsy url [a] none false 5 := rfl
    rw [hm, parseArgsGo_skip jp falsy url a [] none false 5 h1 h2 h3]
    rfl
  · intro J jp falsy argv m h
    match argv with
    | [] => exact Or.inl (by simp)
    | [prog] => exact Or.inl (by simp)
    | prog :: url :: rest =>
      right
      have h2 : parseArgsGo jp falsy url rest none false 5 = .exitErr m := h
      obtain ⟨a, ha, hprop⟩ := parseArgsGo_exit jp falsy url rest none false 5 m h2
      exact ⟨a, List.mem_cons_of_mem prog (List.mem_cons_of_mem url ha), hprop⟩

theorem C9_bad_json_ignored_witness :
    mainParseArgs (fun _ => (none : Option Unit)) (fun _ => true)
      ["prog", "http://e/", "nonjson"] = .run "http://e/" none false 5 ∧
    (["prog"].length ≤ 1 ∨
      ∃ a ∈ ["prog"], startsWithL "--max-pages=".toList a.toList = true ∧
        pyInt (maxPagesValue a) = none) :=
  ⟨C9_bad_json_ignored.2.1 (fun _ => none) (fun _ => true) "prog" "http://e/"
      "nonjson" rfl (by decide) (by decide),
   C9_bad_json_ignored.2.2 (fun _ => (none : Option Unit)) (fun _ => true)
      ["prog"] "URL argument is required" rfl⟩

theorem C1_rel_next_witness :
    (anchorConfidence ["http://e/b"] [] "http://e/b" "x" =
       anchorConfidence [] [] "http://e/b" "x" + 15) ∧
    (find_pagination_links relNextDoc "http://e/").head? =
      some "http://e/c?page=2" :=
  ⟨C1_rel_next.1 ["http://e/b"] [] "http://e/b" "x" (by decide),
   C1_rel_next.2 relNextDoc "http://e/" "http://e/c?page=2" 27
     (by decide) (by decide) (by decide)⟩

/-! ## Claim C8 -/

set_option maxRecDepth 4000 in
/-- C8 counterexample: a crawl collecting exactly two pages whose first
page markdown itself contains the separator text yields a combined
markdown with two occurrences of it, not one. -/
theorem C8_counterexample :
    pagesScrapedOf (scrape_with_pagination sepRender selHead "http://c.test/" 2).1 = 2 ∧
    countOcc pageBreakText.toList
      (markdownOf (scrape_with_pagination sepRender selHead "http://c.test/" 2).1).toList
      = 2 := by
  decide

/-- C8 amended: the combined markdown of a two-page crawl is the two page
blocks joined with the separator, so it holds exactly one occurrence more
than the blocks themselves; in particular exactly one when neither block
contains the separator text, and every two-page crawl markdown has this
joined shape. -/
theorem C8_separator_count :
    (∀ p1 p2 : PageData,
       countOcc pageBreakText.toList (combinedMarkdown [p1, p2]).toList =
         countOcc pageBreakText.toList (pageBlock 0 p1).toList + 1 +
           countOcc pageBreakText.toList (pageBlock 1 p2).toList) ∧
    (∀ p1 p2 : PageData,
       countOcc pageBreakText.toList (pageBlock 0 p1).toList = 0 →
       countOcc pageBreakText.toList (pageBlock 1 p2).toList = 0 →
       countOcc pageBreakText.toList (combinedMarkdown [p1, p2]).toList = 1) ∧
    (∀ (render : String → RenderResult)
       (sel : List String → Doc → String → Option String)
       (url : String) (mp : Int) (cd : CombinedData) (tr : List Ev),
       scrape_with_pagination render sel url mp = (.success cd, tr) →
       cd.pagesScraped = 2 →
       ∃ p1 p2 : PageData, cd.markdown = combinedMarkdown [p1, p2]) := by
  have hne : pageBreakText.toList ≠ [] := by decide
  have hnl : '\n' ∉ pageBreakText.toList := by decide
  have hself : countOcc pageBreakText.toList pageBreakText.toList = 1 := by decide
  have key : ∀ p1 p2 : PageData,
      countOcc pageBreakText.toList (combinedMarkdown [p1, p2]).toList =
        countOcc pageBreakText.toList (pageBlock 0 p1).toList + 1 +
          countOcc pageBreakText.toList (pageBlock 1 p2).toList := by
    intro p1 p2
    have hcm : combinedMarkdown [p1, p2] =
        pageBlock 0 p1 ++ PAGE_BREAK_SEP ++ pageBlock 1 p2 := rfl
    have hlist : (combinedMarkdown [p1, p2]).toList =
        (pageBlock 0 p1).toList ++
          ('\n' :: '\n' :: (pageBreakText.toList ++
            ('\n' :: '\n' :: (pageBlock 1 p2).toList))) := by
      rw [hcm]
      show ((pageBlock 0 p1 ++ PAGE_BREAK_SEP ++ pageBlock 1 p2)).data = _
      rw [String.data_append, String.data_append]
      have hsep : PAGE_BREAK_SEP.data =
          '\n' :: '\n' :: (pageBreakText.toList ++ ['\n', '\n']) := by decide
      rw [hsep]
      simp
    rw [hlist]
    rw [countOcc_append_headNl pageBreakText.toList hne hnl (pageBlock 0 p1).toList
      ('\n' :: '\n' :: (pageBreakText.toList ++ ('\n' :: '\n' :: (pageBlock 1 p2).toList)))
      rfl]
    rw [countOcc_cons_nl pageBreakText.toList hne hnl,
        countOcc_cons_nl pageBreakText.toList hne hnl]
    rw [countOcc_append_headNl pageBreakText.toList hne hnl pageBreakText.toList
      ('\n' :: '\n' :: (pageBlock 1 p2).toList) rfl]
    rw [countOcc_cons_nl pageBreakText.toList hne hnl,
        countOcc_cons_nl pageBreakText.toList hne hnl]
    rw [hself]
    omega
  refine ⟨key, ?_, ?_⟩
  · intro p1 p2 h1 h2
    rw [key p1 p2, h1, h2]
  · intro render sel url mp cd tr h hlen
    unfold scrape_with_pagination at h
    dsimp only at h
    cases hm : (crawlLoop render sel [] [] (some url) mp.toNat).2.1 with
    | some e =>
      rw [hm] at h
      dsimp only at h
      exact absurd (congrArg Prod.fst h) (by simp)
    | none =>
      rw [hm] at h
      dsimp only at h
      have hcd : combine url mp (crawlLoop render sel [] [] (some url) mp.toNat).1 = cd := by
        have := congrArg Prod.fst h
        simpa using this
      rw [← hcd] at hlen
      have hlen2 : (crawlLoop render sel [] [] (some url) mp.toNat).1.length = 2 := by
        simpa [combine] using hlen
      obtain ⟨p1, p2, hp⟩ := List.length_eq_two.mp hlen2
      refine ⟨p1, p2, ?_⟩
      rw [← hcd]
      simp [combine, hp]

theorem C8_separator_count_witness :
    countOcc pageBreakText.toList (combinedMarkdown [plainPage, wPage]).toList =
      countOcc pageBreakText.toList (pageBlock 0 plainPage).toList + 1 +
        countOcc pageBreakText.toList (pageBlock 1 wPage).toList ∧
    countOcc pageBreakText.toList (combinedMarkdown [plainPage, wPage]).toList = 1 ∧
    ∃ p1 p2 : PageData,
      markdownOf (scrape_with_pagination sepRender selHead "http://c.test/" 2).1 =
        combinedMarkdown [p1, p2] := by
  refine ⟨C8_separator_count.1 plainPage wPage,
    C8_separator_count.2.1 plainPage wPage (by decide) (by decide), ?_⟩
  obtain ⟨p1, p2, hp⟩ := C8_separator_count.2.2 sepRender selHead "http://c.test/" 2
    (combine "http://c.test/" 2 [sepPage1, sepPage2])
    [.addVisited "http://c.test/", .fetch "http://c.test/",
     .addVisited "http://c.test/b?page=2", .fetch "http://c.test/b?page=2"]
    (by decide) (by decide)
  exact ⟨p1, p2, by rw [← hp]; decide⟩

/-! ## Claim C6 -/

/-- C6: a failed first-page render propagates as the whole crawl failure
with no pages collected; a failed render with pages already collected
stops the loop, keeps exactly those pages and raises no error; and in the
two-page scenario the failing second fetch leaves a success carrying one
page with pages_scraped 1, the failing URL fetched exactly once and never
retried. -/
theorem C6_failure_asymmetry :
    (∀ (render : String → RenderResult)
       (sel : List String → Doc → String → Option String)
       (url : String) (mp : Int) (e : String),
       0 < mp → url ≠ "" → render url = .err e →
       scrape_with_pagination render sel url mp =
         (.failure e, [.addVisited url, .fetch url])) ∧
    (∀ (render : String → RenderResult)
       (sel : List String → Doc → String → Option String)
       (v : List String) (p : List PageData) (cur : String) (f : Nat) (e : String),
       p ≠ [] → cur ≠ "" → cur ∉ v → render cur = .err e →
       crawlLoop render sel v p (some cur) (f + 1) =
         (p, none, [.addVisited cur, .fetch cur])) ∧
    (∀ (render : String → RenderResult)
       (sel : List String → Doc → String → Option String)
       (url u2 : String) (mp : Int) (d : PageData) (e : String),
       2 ≤ mp → url ≠ "" → u2 ≠ "" → u2 ≠ url →
       render url = .ok d →
       find_pagination_links d.html url ≠ [] →
       sel (find_pagination_links d.html url) d.html url = some u2 →
       render u2 = .err e →
       scrape_with_pagination render sel url mp =
         (.success (combine url mp [d]),
          [.addVisited url, .fetch url, .addVisited u2, .fetch u2]) ∧
       (combine url mp [d]).pagesScraped = 1) := by
  refine ⟨?_, ?_, ?_⟩
  · intro render sel url mp e hmp hurl hr
    obtain ⟨k, hk⟩ : ∃ k, mp.toNat = k + 1 := ⟨mp.toNat - 1, by omega⟩
    unfold scrape_with_pagination
    dsimp only
    rw [hk, crawlLoop_err_first render sel [] url k e hurl (by simp) hr]
  · intro render sel v p cur f e hp hcur hcv hr
    exact crawlLoop_err_keepPages render sel v p cur f e hp hcur hcv hr
  · intro render sel url u2 mp d e hmp hurl hu2 hne hok hlinks hsel herr
    obtain ⟨k, hk⟩ : ∃ k, mp.toNat = k + 1 + 1 := ⟨mp.toNat - 2, by omega⟩
    constructor
    · unfold scrape_with_pagination
      dsimp only
      rw [hk, crawlLoop_ok render sel [] [] url (k + 1) d hurl (by simp) hok]
      rw [if_neg hlinks, hsel]
      simp only [List.nil_append]
      rw [crawlLoop_err_keepPages render sel [url] [d] u2 k e (by simp) hu2
        (by simp [hne]) herr]
    · rfl

theorem C6_failure_asymmetry_witness :
    scrape_with_pagination failRender selHead "http://a.test/" 1 =
      (.failure "down", [.addVisited "http://a.test/", .fetch "http://a.test/"]) ∧
    crawlLoop failRender selHead [] [plainPage] (some "http://b.test/") 1 =
      ([plainPage], none, [.addVisited "http://b.test/", .fetch "http://b.test/"]) ∧
    scrape_with_pagination wRender selHead "http://w.test/" 2 =
      (.success (combine "http://w.test/" 2 [wPage]),
       [.addVisited "http://w.test/", .fetch "http://w.test/",
        .addVisited "http://w.test/b?page=2", .fetch "http://w.test/b?page=2"]) :=
  ⟨C6_failure_asymmetry.1 failRender selHead "http://a.test/" 1 "down"
      (by decide) (by decide) rfl,
   C6_failure_asymmetry.2.1 failRender selHead [] [plainPage] "http://b.test/" 0 "down"
      (by decide) (by decide) (by simp) rfl,
   (C6_failure_asymmetry.2.2 wRender selHead "http://w.test/" "http://w.test/b?page=2"
      2 wPage "late" (by decide) (by decide) (by decide) (by decide) (by decide)
      (by decide) (by decide) (by decide)).1⟩

theorem C4_keyword_bonus_witness :
    10 ≤ anchorConfidence [] [] "http://x.test/item" "view more" ∧
    15 ≤ anchorConfidence [] [] "http://x.test/item" "see more" :=
  ⟨C4_keyword_bonus.1 [] [] "http://x.test/item" "view more"
      (lits "view" ++ [.wsStar] ++ lits "more") (by decide),
   C4_keyword_bonus.2.1 [] [] "http://x.test/item" "see more"
      (lits "see" ++ [.wsStar] ++ lits "more") (by decide) (by decide)⟩

end Scrappy
